import Mathlib

/-!
Verification of the consistent-subsetting layer of the `its-data` repository.

Two source modules are embedded:
* `DataModel` embeds `src/data_utils/default_pipelines/data.py`: the dataclasses
  `Target_Data`, `Data`, `Processed_Data`, `BoW_Data` and the generic operations
  `subset_data_points`, `subset_categories`, `subset_words`, plus
  `BoW_Data.from_processed_data`.
* `FlatClassification` embeds `src/data_utils/default_pipelines/flat_classification.py`:
  the `Target_Data` named tuple, `subset_target_categories`, `subset_target_array`,
  `_values_to_target_data` and the row-level part of `generate_data`.

Numpy arrays are modelled as lists (2-D arrays as lists of rows); Python dicts as
association lists; fancy indexing `v[indices]` as `subIdx`; boolean-mask indexing
`v[mask]` as `maskKeep`.  Out-of-range accesses, which raise in Python, are modelled
totally with explicit defaults (`getD`); the theorems carry the in-range hypotheses
under which both semantics agree.
-/

namespace DataModel

/-- Numpy fancy indexing `val[indices]` along the first axis, and the list branch
`[val[int(index)] for index in indices]` of `subset_arr_or_list` in
`subset_data_points` (`data.py`). -/
def subIdx {α : Type} (xs : List α) (ix : List Nat) (d : α) : List α :=
  ix.map (fun i => xs.getD i d)

/-- Lookup in a Python dict modelled as an association list (first matching key). -/
def dictLookup {κ α : Type} [DecidableEq κ] (dct : List (κ × α)) (k : κ) : Option α :=
  match dct with
  | [] => none
  | p :: rest => if p.1 = k then some p.2 else dictLookup rest k

/-- Python dict union `dct | {k: v}`: replaces the value at an existing key in
place, otherwise appends the new key at the end. -/
def dictUpdate {κ α : Type} [DecidableEq κ] (dct : List (κ × α)) (k : κ) (v : α) :
    List (κ × α) :=
  if (dictLookup dct k).isSome then
    dct.map (fun p => if p.1 = k then (k, v) else p)
  else
    dct ++ [(k, v)]

/-- `Target_Data` from `data.py`: `arr` is the documents × categories boolean
matrix (`_2d_data_fields`), `in_test_set` is document-indexed
(`_1d_data_fields`), `uris` and `labels` are category-indexed
(`_category_fields`). -/
structure Target_Data where
  arr : List (List Bool)
  in_test_set : List Bool
  uris : List String
  labels : List String
deriving DecidableEq

/-- `Data` from `data.py`: `raw_texts`, `ids`, `redaktion_arr` are
document-indexed (`_1d_data_fields`); `target_data` is the nested-data dict
(`_nested_data_fields`). -/
structure Data where
  raw_texts : List String
  ids : List String
  redaktion_arr : List Bool
  target_data : List (String × Target_Data)
deriving DecidableEq

/-- `Processed_Data` from `data.py`: adds the document-indexed list
`processed_texts`. -/
structure Processed_Data extends Data where
  processed_texts : List (List String)
deriving DecidableEq

/-- `BoW_Data` from `data.py`: adds `bows` (document-indexed rows of word
counts) and the `id_to_word` dict. -/
structure BoW_Data extends Processed_Data where
  bows : List (List Nat)
  id_to_word : List (Nat × String)
deriving DecidableEq

/-- `subset_data_points` on a `Target_Data`: subsets the document axis of
`arr` and `in_test_set` by `ix`, leaves the category fields untouched. -/
def Target_Data.subset_data_points (t : Target_Data) (ix : List Nat) : Target_Data :=
  { arr := subIdx t.arr ix []
    in_test_set := subIdx t.in_test_set ix false
    uris := t.uris
    labels := t.labels }

/-- `subset_data_points` on a `Data`: subsets every `_1d_data_fields` entry by
`ix` and recurses into every value of the `target_data` dict with the same
indices. -/
def Data.subset_data_points (d : Data) (ix : List Nat) : Data :=
  { raw_texts := subIdx d.raw_texts ix ""
    ids := subIdx d.ids ix ""
    redaktion_arr := subIdx d.redaktion_arr ix false
    target_data := d.target_data.map (fun p => (p.1, p.2.subset_data_points ix)) }

/-- `subset_data_points` on a `Processed_Data`: the `Data` behaviour plus the
list field `processed_texts`. -/
def Processed_Data.subset_data_points (d : Processed_Data) (ix : List Nat) :
    Processed_Data :=
  { toData := d.toData.subset_data_points ix
    processed_texts := subIdx d.processed_texts ix [] }

/-- `subset_data_points` on a `BoW_Data`: the `Processed_Data` behaviour plus
row subsetting of `bows`; `id_to_word` is untouched. -/
def BoW_Data.subset_data_points (d : BoW_Data) (ix : List Nat) : BoW_Data :=
  { toProcessed_Data := d.toProcessed_Data.subset_data_points ix
    bows := subIdx d.bows ix []
    id_to_word := d.id_to_word }

/-- The replacement `Target_Data` built by `subset_categories` for the selected
field: `arr[:, indices]`, `uris[indices]`, `labels[indices]`, `in_test_set`
unchanged. -/
def Target_Data.subset_cats (t : Target_Data) (ix : List Nat) : Target_Data :=
  { arr := t.arr.map (fun row => subIdx row ix false)
    in_test_set := t.in_test_set
    uris := subIdx t.uris ix ""
    labels := subIdx t.labels ix "" }

/-- `subset_categories` from `data.py`: rebuilds the dict entry for `fieldName`
via dict union.  The source indexes `data.target_data[field]` directly and
raises `KeyError` when the field is absent; that branch is unreachable under
the claims' "field present" hypothesis. -/
def Data.subset_categories (d : Data) (ix : List Nat) (fieldName : String) : Data :=
  match dictLookup d.target_data fieldName with
  | none => d
  | some td =>
    { d with target_data := dictUpdate d.target_data fieldName (td.subset_cats ix) }

/-- `subset_categories` applied to a `Processed_Data` (the source function is
generic over `Data` subtypes and only touches `target_data`). -/
def Processed_Data.subset_categories (d : Processed_Data) (ix : List Nat)
    (fieldName : String) : Processed_Data :=
  { d with toData := d.toData.subset_categories ix fieldName }

/-- `subset_categories` applied to a `BoW_Data`. -/
def BoW_Data.subset_categories (d : BoW_Data) (ix : List Nat)
    (fieldName : String) : BoW_Data :=
  { d with toData := d.toData.subset_categories ix fieldName }

/-- `subset_words` from `data.py`: `bows[:, indices]` plus the rebuilt
`id_to_word` dict `{new_index: id_to_word[old_index] for new_index, old_index
in enumerate(indices)}`.  A missing old index raises `KeyError` in the source;
the total model substitutes `""`. -/
def BoW_Data.subset_words (d : BoW_Data) (ix : List Nat) : BoW_Data :=
  { d with
    bows := d.bows.map (fun row => subIdx row ix 0)
    id_to_word := ix.enum.map (fun p => (p.1, (dictLookup d.id_to_word p.2).getD "")) }

/-- The vocabulary built by `BoW_Data.from_processed_data`:
`list(reduce(or_, (set(doc) for doc in processed_texts), set()))`.  Python's
set-iteration order is unspecified; the model fixes one duplicate-free
enumeration of the token union (`dedup` of the concatenation). -/
def vocabulary (docs : List (List String)) : List String :=
  (docs.flatMap id).dedup

/-- `doc_to_bow` from `BoW_Data.from_processed_data`: starts from a zero vector
of length `len(words)` and, for every distinct word of the document (the items
of `Counter(doc)`), writes `min(count, 255)` at the word's vocabulary index.
The fold order does not affect the result (distinct words hit distinct
indices); the model iterates the distinct words via `dedup`. -/
def doc_to_bow (words : List String) (doc : List String) : List Nat :=
  doc.dedup.foldl (fun res w => res.set (words.indexOf w) (min (doc.count w) 255))
    (List.replicate words.length 0)

/-- `BoW_Data.from_processed_data`: keeps every field of the input, stacks the
per-document bag-of-words rows, and enumerates the vocabulary as the
`id_to_word` dict. -/
def BoW_Data.from_processed_data (d : Processed_Data) : BoW_Data :=
  { toProcessed_Data := d
    bows := d.processed_texts.map (fun doc => doc_to_bow (vocabulary d.processed_texts) doc)
    id_to_word := (vocabulary d.processed_texts).enum }

/-- All document-indexed fields of a `Target_Data` (`arr` rows and
`in_test_set`) have length `n`. -/
def Target_Data.doc_len (t : Target_Data) (n : Nat) : Prop :=
  t.arr.length = n ∧ t.in_test_set.length = n

/-- The category-axis fields of a `Target_Data` are mutually aligned:
`len(uris) == len(labels) ==` the column count of `arr`. -/
def Target_Data.cat_aligned (t : Target_Data) : Prop :=
  t.uris.length = t.labels.length ∧ ∀ row ∈ t.arr, row.length = t.uris.length

/-- All document-indexed fields of a `Data`, including those of every nested
`Target_Data`, have length `n`. -/
def Data.doc_len (d : Data) (n : Nat) : Prop :=
  d.raw_texts.length = n ∧ d.ids.length = n ∧ d.redaktion_arr.length = n ∧
    ∀ p ∈ d.target_data, Target_Data.doc_len p.2 n

/-- Every nested `Target_Data` of a `Data` has aligned category-axis fields. -/
def Data.cat_aligned (d : Data) : Prop :=
  ∀ p ∈ d.target_data, Target_Data.cat_aligned p.2

/-- `Data.doc_len` extended with `processed_texts`. -/
def Processed_Data.doc_len (d : Processed_Data) (n : Nat) : Prop :=
  d.toData.doc_len n ∧ d.processed_texts.length = n

/-- Category alignment of a `Processed_Data` (only nested targets carry
category-axis fields). -/
def Processed_Data.cat_aligned (d : Processed_Data) : Prop :=
  d.toData.cat_aligned

/-- `Processed_Data.doc_len` extended with the row count of `bows`. -/
def BoW_Data.doc_len (d : BoW_Data) (n : Nat) : Prop :=
  d.toProcessed_Data.doc_len n ∧ d.bows.length = n

/-- Category alignment of a `BoW_Data`. -/
def BoW_Data.cat_aligned (d : BoW_Data) : Prop :=
  d.toProcessed_Data.cat_aligned

instance (t : Target_Data) (n : Nat) : Decidable (t.doc_len n) := by
  unfold Target_Data.doc_len; infer_instance

instance (t : Target_Data) : Decidable t.cat_aligned := by
  unfold Target_Data.cat_aligned; infer_instance

instance (d : Data) (n : Nat) : Decidable (d.doc_len n) := by
  unfold Data.doc_len; infer_instance

instance (d : Data) : Decidable d.cat_aligned := by
  unfold Data.cat_aligned; infer_instance

instance (d : Processed_Data) (n : Nat) : Decidable (d.doc_len n) := by
  unfold Processed_Data.doc_len; infer_instance

instance (d : Processed_Data) : Decidable d.cat_aligned := by
  unfold Processed_Data.cat_aligned; infer_instance

instance (d : BoW_Data) (n : Nat) : Decidable (d.doc_len n) := by
  unfold BoW_Data.doc_len; infer_instance

instance (d : BoW_Data) : Decidable d.cat_aligned := by
  unfold BoW_Data.cat_aligned; infer_instance

/-- The inverse of a permutation given as an index list: position `k` holds the
position of `k` inside `P`. -/
def inverse_permutation (P : List Nat) : List Nat :=
  (List.range P.length).map (fun k => P.indexOf k)

/-- A small concrete `Target_Data` used to instantiate proved theorems. -/
def exTD : Target_Data :=
  { arr := [[true, false], [false, true], [true, true]]
    in_test_set := [true, false, true]
    uris := ["u0", "u1"]
    labels := ["l0", "l1"] }

/-- A small concrete `Data` used to instantiate proved theorems. -/
def exData : Data :=
  { raw_texts := ["a", "b", "c"]
    ids := ["i0", "i1", "i2"]
    redaktion_arr := [true, false, false]
    target_data := [("t", exTD)] }

/-- A small concrete `Processed_Data` used to instantiate proved theorems. -/
def exProcessed : Processed_Data :=
  { toData := exData
    processed_texts := [["x", "y"], ["y"], ["z", "z", "x"]] }

/-- A small concrete `BoW_Data` used to instantiate proved theorems. -/
def exBoW : BoW_Data :=
  { toProcessed_Data := exProcessed
    bows := [[1, 2, 0], [0, 1, 0], [2, 0, 3]]
    id_to_word := [(0, "x"), (1, "y"), (2, "z")] }

/-- The concrete `BoW_Data` of the spec's `subset_by_word` scenario:
`id_to_word = {0: "cat", 1: "dog", 2: "fish"}`. -/
def exBoWWords : BoW_Data :=
  { toProcessed_Data := exProcessed
    bows := [[1, 2, 3], [4, 5, 6]]
    id_to_word := [(0, "cat"), (1, "dog"), (2, "fish")] }

end DataModel

namespace FlatClassification

/-- `Target_Data` from `flat_classification.py`: a named tuple of the boolean
documents × categories matrix, the category URIs and the optional labels. -/
structure Target_Data where
  arr : List (List Bool)
  uris : List String
  labels : List (Option String)
deriving DecidableEq

/-- Numpy boolean-mask indexing `xs[mask]` along the first axis, and the
source's comprehension `[x for i, x in enumerate(xs) if i in np.where(mask)[0]]`:
keeps `xs[i]` exactly when `mask[i]` is true (positions beyond the mask are
dropped, matching `i in subset_indices` being false there). -/
def maskKeep {α : Type} (xs : List α) (mask : List Bool) : List α :=
  (xs.zip mask).filterMap (fun p => if p.2 then some p.1 else none)

/-- `subset_target_categories` from `flat_classification.py`: masks the column
axis of `arr` and the `uris`/`labels` sequences by the same boolean mask. -/
def subset_target_categories (data : Target_Data) (mask : List Bool) : Target_Data :=
  { arr := data.arr.map (fun row => maskKeep row mask)
    uris := maskKeep data.uris mask
    labels := maskKeep data.labels mask }

/-- The assertion `len(data.uris) == len(data.labels) == data.arr.shape[-1]`
at the end of `subset_target_categories`; a rectangular `shape[-1]` is read as
"every row has that length". -/
def Target_Data.length_check (t : Target_Data) : Prop :=
  t.uris.length = t.labels.length ∧ ∀ row ∈ t.arr, row.length = t.uris.length

instance (t : Target_Data) : Decidable t.length_check := by
  unfold Target_Data.length_check; infer_instance

/-- `subset_target_array` from `flat_classification.py`: masks the document
axis of `arr` only. -/
def subset_target_array (data : Target_Data) (mask : List Bool) : Target_Data :=
  { arr := maskKeep data.arr mask
    uris := data.uris
    labels := data.labels }

/-- Column support `arr.sum(-2)[j]`: the number of true entries in column `j`. -/
def colSum (arr : List (List Bool)) (j : Nat) : Nat :=
  (arr.map (fun row => if row.getD j false then 1 else 0)).sum

/-- The boolean mask `arr.sum(-2) > min_category_support` built in
`_values_to_target_data`, over `ncols` columns. -/
def min_support_mask (arr : List (List Bool)) (ncols m : Nat) : List Bool :=
  (List.range ncols).map (fun j => decide (m < colSum arr j))

/-- The column indices that survive the min-support mask, in order. -/
def kept_categories (arr : List (List Bool)) (ncols t : Nat) : List Nat :=
  (List.range ncols).filter (fun j => decide (t < colSum arr j))

/-- Lexicographic order on character lists, used to model Python's string sort. -/
def charListLe : List Char → List Char → Bool
  | [], _ => true
  | _ :: _, [] => false
  | x :: xs, y :: ys => if x < y then true else if y < x then false else charListLe xs ys

/-- Lexicographic order on strings (Python `sorted` comparison). -/
def strLe (a b : String) : Bool := charListLe a.data b.data

/-- Insertion step of the string sort. -/
def insertSorted (x : String) : List String → List String
  | [] => [x]
  | y :: ys => if strLe x y then x :: y :: ys else y :: insertSorted x ys

/-- Insertion sort of strings, modelling `sorted(x)`. -/
def sortStrings (l : List String) : List String := l.foldr insertSorted []

/-- Modelled from the spec: `data_utils.transform.as_boolean_array` is not under
`src/`; per spec §4.3 the category universe is the sorted union of all category
ids seen across documents and `matrix[i][j] = True` iff document `i`'s value
set contains `category_ids[j]` (absent/empty values give an all-false row). -/
def as_boolean_array (values : List (List String)) : List (List Bool) × List String :=
  let uris := sortStrings (values.flatMap id).dedup
  (values.map (fun vs => uris.map (fun u => decide (u ∈ vs))), uris)

/-- `_values_to_target_data` from `flat_classification.py`, with the label
resolution collaborator (`fetch.labels_from_skos` / `fetch.labels_from_uris`,
both per-uri HTTP lookups aligned to `uris`) abstracted as `labelLookup`.
The local variable `data` is rebound to the min-support-filtered record when
`min_category_support` is truthy (a non-`None`, non-zero value), but the
returned value is a fresh `Target_Data(arr, uris, labels)`. -/
def values_to_target_data (values : List (List String))
    (labelLookup : String → Option String)
    (min_category_support : Option Nat) : Target_Data :=
  let enc := as_boolean_array values
  let arr := enc.1
  let uris := enc.2
  let labels := uris.map labelLookup
  let data := Target_Data.mk arr uris labels
  let _filtered : Target_Data :=
    match min_category_support with
    | some m =>
      if m ≠ 0 then subset_target_categories data (min_support_mask arr uris.length m)
      else data
    | none => data
  Target_Data.mk arr uris labels

/-- One row of the dataframe produced by `get_basic_df`, seen by the body of
`generate_data`: the fetched and column-renamed fields after
`fix_entry_multi_value`.  `targets` maps each target field to the row's
(multi-)value set. -/
structure Row where
  title : Option String
  description : Option String
  id : String
  collections : List String
  language : List String
  targets : String → List String

instance : Inhabited Row := ⟨⟨none, none, "", [], [], fun _ => []⟩⟩

/-- `empty_str` from `generate_data`: `x is None or len(x) == 0`. -/
def empty_str : Option String → Bool
  | none => true
  | some s => s.length == 0

/-- The first row filter of `generate_data`: keep rows where neither
`description` nor `title` is empty. -/
def kept_rows (rows : List Row) : List Row :=
  rows.filter (fun r => !(empty_str r.description) && !(empty_str r.title))

/-- The language filter of `generate_data`: when `allowed_languages` is given,
keep rows whose language set is a subset of the allowed set
(`not x - frozenset(allowed_languages)`). -/
def language_rows (rows : List Row) (allowed : Option (List String)) : List Row :=
  match allowed with
  | none => rows
  | some langs => rows.filter (fun r => r.language.all (· ∈ langs))

/-- The per-target encodings built by `generate_data` after both row filters:
`{target: _values_to_target_data(df[target], ...) for target in target_fields}`. -/
def encoded_targets (rows : List Row) (target_fields : List String)
    (labelLookup : String → Option String) (min_category_support : Option Nat) :
    List (String × Target_Data) :=
  target_fields.map (fun t =>
    (t, values_to_target_data (rows.map (fun r => r.targets t)) labelLookup
      min_category_support))

/-- The `kept_docs` mask of `generate_data`:
`reduce(logical_or / logical_and, (data.arr.sum(-1) > 0 for data in targets))`.
`reduce` over an empty target dict raises `TypeError` in the source; the model
returns the empty mask there. -/
def combined_kept (tds : List Target_Data) (keep_any : Bool) : List Bool :=
  match tds.map (fun td => td.arr.map (fun row => row.any id)) with
  | [] => []
  | m :: ms => ms.foldl (fun acc v => acc.zipWith (fun a b => if keep_any then a || b else a && b) v) m

/-- The rows surviving all three row-level steps of `generate_data`: the
empty-text filter, the language filter, and the `kept_docs` target-membership
mask. -/
def final_rows (rows : List Row) (target_fields : List String)
    (labelLookup : String → Option String) (allowed : Option (List String))
    (keep_any : Bool) (min_category_support : Option Nat) : List Row :=
  let rows2 := language_rows (kept_rows rows) allowed
  maskKeep rows2
    (combined_kept
      ((encoded_targets rows2 target_fields labelLookup min_category_support).map Prod.snd)
      keep_any)

/-- `Data` from `flat_classification.py`. -/
structure Data where
  raw_texts : List String
  ids : List String
  target_data : List (String × Target_Data)
  redaktion_arr : List Bool

/-- The body of `generate_data` from `flat_classification.py`, starting from
the dataframe returned by `get_basic_df` (the fetch/load collaborator,
parameterised as `rows`) and with label resolution parameterised as
`labelLookup`: filters empty-text rows, filters disallowed languages, encodes
each target field, drops documents matching no (or not all) targets, subsets
each target's document axis by the same mask, and assembles raw texts
(`title + "\n" + description`), ids and the redaction flags
(`"Redaktionsbuffet" in collections`). -/
def generate_data (rows : List Row) (target_fields : List String)
    (labelLookup : String → Option String) (allowed : Option (List String))
    (keep_any : Bool) (min_category_support : Option Nat) : Data :=
  let rows2 := language_rows (kept_rows rows) allowed
  let target_data0 := encoded_targets rows2 target_fields labelLookup min_category_support
  let kept := combined_kept (target_data0.map Prod.snd) keep_any
  let rows3 := maskKeep rows2 kept
  { raw_texts := rows3.map (fun r => r.title.getD "" ++ "\n" ++ r.description.getD "")
    ids := rows3.map (fun r => r.id)
    target_data := target_data0.map (fun p => (p.1, subset_target_array p.2 kept))
    redaktion_arr := rows3.map (fun r => decide ("Redaktionsbuffet" ∈ r.collections)) }

/-- A small concrete flat `Target_Data` used to instantiate proved theorems. -/
def exFlatTD : Target_Data :=
  { arr := [[true, false, true], [false, false, true], [true, false, false]]
    uris := ["a", "b", "c"]
    labels := [some "A", none, some "C"] }

/-- A small concrete row set used to instantiate proved theorems: rows 2, 3 and
5 have a missing or empty title or description, row 4 matches no target. -/
def exRows : List Row :=
  [ { title := some "T1", description := some "D1", id := "r1"
      collections := ["Redaktionsbuffet"], language := ["de"], targets := fun _ => ["a"] }
  , { title := none, description := some "D2", id := "r2"
      collections := [], language := ["de"], targets := fun _ => ["b"] }
  , { title := some "", description := some "D3", id := "r3"
      collections := [], language := ["de"], targets := fun _ => ["a", "b"] }
  , { title := some "T4", description := some "D4", id := "r4"
      collections := [], language := ["fr"], targets := fun _ => [] }
  , { title := some "T5", description := some "", id := "r5"
      collections := [], language := ["de"], targets := fun _ => ["b"] } ]

end FlatClassification

/-! ### General lemmas about the list and dict combinators -/

namespace DataModel

theorem subIdx_length {α : Type} (xs : List α) (ix : List Nat) (d : α) :
    (subIdx xs ix d).length = ix.length := by
  simp [subIdx]

theorem getD_eq_getElem {α : Type} (xs : List α) (i : Nat) (h : i < xs.length) (d : α) :
    xs.getD i d = xs[i] := by
  simp [List.getD_eq_getElem?_getD, List.getElem?_eq_getElem, h]

theorem getD_mem {α : Type} (xs : List α) (i : Nat) (d : α) (h : i < xs.length) :
    xs.getD i d ∈ xs := by
  rw [getD_eq_getElem xs i h]
  exact List.getElem_mem h

theorem getD_map {α β : Type} (f : α → β) (xs : List α) (i : Nat) (d : α) (d' : β)
    (h : i < xs.length) : (xs.map f).getD i d' = f (xs.getD i d) := by
  rw [getD_eq_getElem _ i (by simpa using h), getD_eq_getElem xs i h]
  simp

theorem range_getD (n i : Nat) (h : i < n) : (List.range n).getD i 0 = i := by
  rw [getD_eq_getElem _ i (by simpa using h)]
  simp

theorem subIdx_getD {α : Type} (xs : List α) (ix : List Nat) (d : α) (k : Nat)
    (hk : k < ix.length) : (subIdx xs ix d).getD k d = xs.getD (ix.getD k 0) d := by
  have hk2 : k < (subIdx xs ix d).length := by simpa [subIdx] using hk
  rw [getD_eq_getElem _ k hk2, getD_eq_getElem ix k hk]
  simp [subIdx]

theorem mem_subIdx {α : Type} {xs : List α} {ix : List Nat} {d : α} {y : α}
    (h : y ∈ subIdx xs ix d) : ∃ i ∈ ix, y = xs.getD i d := by
  obtain ⟨i, hi, he⟩ := List.mem_map.mp h
  exact ⟨i, hi, he.symm⟩

theorem self_eq_range_map {α : Type} (xs : List α) (d : α) :
    xs = (List.range xs.length).map (fun j => xs.getD j d) := by
  apply List.ext_getElem
  · simp
  · intro i h1 h2
    simp only [List.getElem_map, List.getElem_range]
    rw [getD_eq_getElem xs i h1]

end DataModel

namespace DataModel

theorem dictLookup_map_replace {κ α : Type} [DecidableEq κ] (dct : List (κ × α))
    (k : κ) (v : α) (h : (dictLookup dct k).isSome) :
    dictLookup (dct.map (fun p => if p.1 = k then (k, v) else p)) k = some v := by
  induction dct with
  | nil => simp [dictLookup] at h
  | cons p rest ih =>
    by_cases hpk : p.1 = k
    · simp [dictLookup, hpk]
    · have h' : (dictLookup rest k).isSome := by simpa [dictLookup, hpk] using h
      simpa [dictLookup, hpk] using ih h'

theorem dictLookup_append_self {κ α : Type} [DecidableEq κ] (dct : List (κ × α))
    (k : κ) (v : α) (h : dictLookup dct k = none) :
    dictLookup (dct ++ [(k, v)]) k = some v := by
  induction dct with
  | nil => simp [dictLookup]
  | cons p rest ih =>
    by_cases hpk : p.1 = k
    · simp [dictLookup, hpk] at h
    · have h' : dictLookup rest k = none := by simpa [dictLookup, hpk] using h
      simpa [dictLookup, hpk] using ih h'

theorem dictLookup_dictUpdate {κ α : Type} [DecidableEq κ] (dct : List (κ × α))
    (k : κ) (v : α) : dictLookup (dictUpdate dct k v) k = some v := by
  by_cases h : (dictLookup dct k).isSome
  · simpa [dictUpdate, h] using dictLookup_map_replace dct k v h
  · have hn : dictLookup dct k = none := Option.not_isSome_iff_eq_none.mp h
    simpa [dictUpdate, h] using dictLookup_append_self dct k v hn

theorem mem_dictUpdate {κ α : Type} [DecidableEq κ] {dct : List (κ × α)} {k : κ}
    {v : α} {p : κ × α} (h : p ∈ dictUpdate dct k v) : p ∈ dct ∨ p = (k, v) := by
  unfold dictUpdate at h
  by_cases hs : (dictLookup dct k).isSome
  · rw [if_pos hs] at h
    obtain ⟨q, hq, hqe⟩ := List.mem_map.mp h
    by_cases hqk : q.1 = k
    · right
      rw [if_pos hqk] at hqe
      exact hqe.symm
    · left
      rw [if_neg hqk] at hqe
      exact hqe ▸ hq
  · rw [if_neg hs] at h
    rcases List.mem_append.mp h with h1 | h2
    · exact Or.inl h1
    · right
      simpa using h2

theorem dictLookup_enumFrom_map {α β : Type} (f : α → β) (l : List α) :
    ∀ (n k : Nat), (hk : k < l.length) →
      dictLookup ((l.enumFrom n).map (fun p => (p.1, f p.2))) (n + k) = some (f l[k]) := by
  induction l with
  | nil => intro n k hk; simp at hk
  | cons x xs ih =>
    intro n k hk
    cases k with
    | zero => simp [List.enumFrom, dictLookup]
    | succ k' =>
      have hk' : k' < xs.length := by simpa using hk
      have hne : ¬ (n = n + (k' + 1)) := by omega
      have hkey : n + (k' + 1) = (n + 1) + k' := by omega
      simp only [List.enumFrom, List.map_cons, dictLookup, hne, if_false,
        List.getElem_cons_succ]
      rw [hkey]
      exact ih (n + 1) k' hk'

theorem dictLookup_enum_map {α β : Type} (f : α → β) (l : List α) (k : Nat)
    (hk : k < l.length) :
    dictLookup (l.enum.map (fun p => (p.1, f p.2))) k = some (f l[k]) := by
  have := dictLookup_enumFrom_map f l 0 k hk
  simpa [List.enum] using this

theorem enum_map_keys {α β : Type} (f : α → β) (l : List α) :
    ((l.enum.map (fun p => (p.1, f p.2))).map Prod.fst) = List.range l.length := by
  rw [List.map_map]
  have : (Prod.fst ∘ fun p : Nat × α => (p.1, f p.2)) = Prod.fst := by
    funext p
    rfl
  rw [this, List.enum_map_fst]

end DataModel

namespace DataModel

theorem subIdx_roundtrip {α : Type} (xs : List α) (d : α) (n : Nat) (P : List Nat)
    (hP : P.Perm (List.range n)) (hlen : xs.length = n) :
    subIdx (subIdx xs P d) (inverse_permutation P) d = xs := by
  have hPlen : P.length = n := by simpa using hP.length_eq
  apply List.ext_getElem
  · simp [subIdx, inverse_permutation, hPlen, hlen]
  · intro i h1 h2
    have hin : i < n := by rwa [hlen] at h2
    have hiP : i ∈ P := hP.mem_iff.mpr (by simpa using hin)
    have hidx : P.indexOf i < P.length := List.indexOf_lt_length.mpr hiP
    simp only [subIdx, inverse_permutation, List.getElem_map, List.getElem_range]
    change (subIdx xs P d).getD (P.indexOf i) d = xs[i]
    rw [subIdx_getD xs P d (P.indexOf i) hidx]
    have hPi : P.getD (P.indexOf i) 0 = i := by
      rw [getD_eq_getElem P _ hidx]
      exact List.getElem_indexOf hidx
    rw [hPi, getD_eq_getElem xs i h2]

theorem tgt_roundtrip (t : Target_Data) (n : Nat) (P : List Nat)
    (hP : P.Perm (List.range n)) (h : t.doc_len n) :
    (t.subset_data_points P).subset_data_points (inverse_permutation P) = t := by
  obtain ⟨h1, h2⟩ := h
  cases t with
  | mk arr its uris labels =>
    simp only [Target_Data.subset_data_points, Target_Data.mk.injEq]
    exact ⟨subIdx_roundtrip arr [] n P hP h1, subIdx_roundtrip its false n P hP h2,
      trivial, trivial⟩

theorem data_roundtrip (d : Data) (n : Nat) (P : List Nat)
    (hP : P.Perm (List.range n)) (h : d.doc_len n) :
    (d.subset_data_points P).subset_data_points (inverse_permutation P) = d := by
  obtain ⟨h1, h2, h3, h4⟩ := h
  cases d with
  | mk rt is ra td =>
    simp only [Data.subset_data_points, Data.mk.injEq, List.map_map]
    refine ⟨subIdx_roundtrip rt "" n P hP h1, subIdx_roundtrip is "" n P hP h2,
      subIdx_roundtrip ra false n P hP h3, ?_⟩
    have : td.map ((fun p : String × Target_Data =>
        (p.1, p.2.subset_data_points (inverse_permutation P))) ∘
        (fun p : String × Target_Data => (p.1, p.2.subset_data_points P))) =
        td.map (fun p => p) := by
      apply List.map_congr_left
      intro p hp
      have := tgt_roundtrip p.2 n P hP (h4 p hp)
      simp [Function.comp, this]
    rw [this, List.map_id']

theorem proc_roundtrip (d : Processed_Data) (n : Nat) (P : List Nat)
    (hP : P.Perm (List.range n)) (h : d.doc_len n) :
    (d.subset_data_points P).subset_data_points (inverse_permutation P) = d := by
  obtain ⟨h1, h2⟩ := h
  cases d with
  | mk base pt =>
    simp only [Processed_Data.subset_data_points, Processed_Data.mk.injEq]
    exact ⟨data_roundtrip base n P hP h1, subIdx_roundtrip pt [] n P hP h2⟩

theorem bow_roundtrip (d : BoW_Data) (n : Nat) (P : List Nat)
    (hP : P.Perm (List.range n)) (h : d.doc_len n) :
    (d.subset_data_points P).subset_data_points (inverse_permutation P) = d := by
  obtain ⟨h1, h2⟩ := h
  cases d with
  | mk base bows itw =>
    simp only [BoW_Data.subset_data_points, BoW_Data.mk.injEq]
    exact ⟨proc_roundtrip base n P hP h1, subIdx_roundtrip bows [] n P hP h2,
      trivial⟩

end DataModel

namespace DataModel

theorem dictLookup_mem {κ α : Type} [DecidableEq κ] {dct : List (κ × α)} {k : κ}
    {v : α} (h : dictLookup dct k = some v) : (k, v) ∈ dct := by
  induction dct with
  | nil => simp [dictLookup] at h
  | cons p rest ih =>
    by_cases hpk : p.1 = k
    · simp only [dictLookup, hpk, if_pos, Option.some.injEq] at h
      rw [show ((k, v) : κ × α) = p from by rw [← hpk, ← h]]
      exact List.mem_cons_self p rest
    · simp only [dictLookup, hpk, if_false] at h
      exact List.mem_cons_of_mem _ (ih h)

theorem tgt_sub_inv (n : Nat) (ix : List Nat) (hix : ∀ i ∈ ix, i < n)
    (t : Target_Data) (hd : t.doc_len n) (hc : t.cat_aligned) :
    (t.subset_data_points ix).doc_len ix.length ∧ (t.subset_data_points ix).cat_aligned := by
  obtain ⟨hd1, hd2⟩ := hd
  obtain ⟨hc1, hc2⟩ := hc
  refine ⟨⟨subIdx_length _ _ _, subIdx_length _ _ _⟩, hc1, ?_⟩
  intro row hrow
  obtain ⟨i, hi, he⟩ := mem_subIdx hrow
  have hlt : i < t.arr.length := by rw [hd1]; exact hix i hi
  exact he ▸ hc2 _ (getD_mem _ _ _ hlt)

theorem tgt_cats_inv (n : Nat) (ix : List Nat) (t : Target_Data)
    (hd : t.doc_len n) (hc : t.cat_aligned) :
    (t.subset_cats ix).doc_len n ∧ (t.subset_cats ix).cat_aligned := by
  obtain ⟨hd1, hd2⟩ := hd
  refine ⟨⟨by simpa [Target_Data.subset_cats] using hd1, hd2⟩, ?_, ?_⟩
  · simp [Target_Data.subset_cats, subIdx_length]
  · intro row hrow
    obtain ⟨r0, hr0, he⟩ := List.mem_map.mp hrow
    simp [Target_Data.subset_cats, subIdx_length, ← he, subIdx]

theorem data_sub_inv (n : Nat) (ix : List Nat) (hix : ∀ i ∈ ix, i < n)
    (d : Data) (hd : d.doc_len n) (hc : d.cat_aligned) :
    (d.subset_data_points ix).doc_len ix.length ∧ (d.subset_data_points ix).cat_aligned := by
  obtain ⟨h1, h2, h3, h4⟩ := hd
  refine ⟨⟨subIdx_length _ _ _, subIdx_length _ _ _, subIdx_length _ _ _, ?_⟩, ?_⟩
  · intro p hp
    obtain ⟨q, hq, he⟩ := List.mem_map.mp hp
    exact he ▸ (tgt_sub_inv n ix hix q.2 (h4 q hq) (hc q hq)).1
  · intro p hp
    obtain ⟨q, hq, he⟩ := List.mem_map.mp hp
    exact he ▸ (tgt_sub_inv n ix hix q.2 (h4 q hq) (hc q hq)).2

theorem proc_sub_inv (n : Nat) (ix : List Nat) (hix : ∀ i ∈ ix, i < n)
    (d : Processed_Data) (hd : d.doc_len n) (hc : d.cat_aligned) :
    (d.subset_data_points ix).doc_len ix.length ∧ (d.subset_data_points ix).cat_aligned := by
  obtain ⟨hdd, hpt⟩ := hd
  have h := data_sub_inv n ix hix d.toData hdd hc
  exact ⟨⟨h.1, subIdx_length _ _ _⟩, h.2⟩

theorem bow_sub_inv (n : Nat) (ix : List Nat) (hix : ∀ i ∈ ix, i < n)
    (d : BoW_Data) (hd : d.doc_len n) (hc : d.cat_aligned) :
    (d.subset_data_points ix).doc_len ix.length ∧ (d.subset_data_points ix).cat_aligned := by
  obtain ⟨hdd, hb⟩ := hd
  have h := proc_sub_inv n ix hix d.toProcessed_Data hdd hc
  exact ⟨⟨h.1, subIdx_length _ _ _⟩, h.2⟩

theorem data_cats_inv (n : Nat) (cats : List Nat) (d : Data)
    (hd : d.doc_len n) (hc : d.cat_aligned) (f : String) :
    (d.subset_categories cats f).doc_len n ∧ (d.subset_categories cats f).cat_aligned := by
  rcases hlk : dictLookup d.target_data f with _ | td
  · simp only [Data.subset_categories, hlk]
    exact ⟨hd, hc⟩
  · obtain ⟨h1, h2, h3, h4⟩ := hd
    have htd_mem : (f, td) ∈ d.target_data := dictLookup_mem hlk
    have htd := tgt_cats_inv n cats td (h4 _ htd_mem) (hc _ htd_mem)
    simp only [Data.subset_categories, hlk]
    refine ⟨⟨h1, h2, h3, ?_⟩, ?_⟩
    · intro p hp
      rcases mem_dictUpdate hp with hmem | heq
      · exact h4 p hmem
      · rw [heq]
        exact htd.1
    · intro p hp
      rcases mem_dictUpdate hp with hmem | heq
      · exact hc p hmem
      · rw [heq]
        exact htd.2

theorem proc_cats_inv (n : Nat) (cats : List Nat) (d : Processed_Data)
    (hd : d.doc_len n) (hc : d.cat_aligned) (f : String) :
    (d.subset_categories cats f).doc_len n ∧ (d.subset_categories cats f).cat_aligned := by
  obtain ⟨hdd, hpt⟩ := hd
  have h := data_cats_inv n cats d.toData hdd hc f
  exact ⟨⟨h.1, hpt⟩, h.2⟩

theorem bow_cats_inv (n : Nat) (cats : List Nat) (d : BoW_Data)
    (hd : d.doc_len n) (hc : d.cat_aligned) (f : String) :
    (d.subset_categories cats f).doc_len n ∧ (d.subset_categories cats f).cat_aligned := by
  obtain ⟨hdd, hb⟩ := hd
  have h := data_cats_inv n cats d.toData hdd.1 hc f
  exact ⟨⟨⟨h.1, hdd.2⟩, hb⟩, h.2⟩

theorem bow_words_inv (n : Nat) (cats : List Nat) (d : BoW_Data)
    (hd : d.doc_len n) (hc : d.cat_aligned) :
    (d.subset_words cats).doc_len n ∧ (d.subset_words cats).cat_aligned := by
  obtain ⟨hp, hb⟩ := hd
  exact ⟨⟨hp, by simpa [BoW_Data.subset_words] using hb⟩, hc⟩

end DataModel

namespace DataModel

/-- **C1**: for every composite dataset record (`Data`, `Processed_Data` or
`BoW_Data`, including every `Target_Data` nested in its `target_data` dict)
whose document-indexed fields all have length `n` and whose category-axis
fields are aligned, each of `subset_data_points` (with in-range document
indices `ix`), `subset_categories` (with category indices `cats`, for any
field name) and `subset_words` returns a record whose document-indexed fields
again all have one common length and whose targets keep
`len(uris) = len(labels) =` column count of `arr`. -/
theorem subsetting_preserves_alignment (n : Nat) (ix cats : List Nat)
    (hix : ∀ i ∈ ix, i < n) :
    (∀ t : Target_Data, t.doc_len n → t.cat_aligned →
      (t.subset_data_points ix).doc_len ix.length ∧ (t.subset_data_points ix).cat_aligned) ∧
    (∀ d : Data, d.doc_len n → d.cat_aligned →
      (d.subset_data_points ix).doc_len ix.length ∧ (d.subset_data_points ix).cat_aligned) ∧
    (∀ d : Processed_Data, d.doc_len n → d.cat_aligned →
      (d.subset_data_points ix).doc_len ix.length ∧ (d.subset_data_points ix).cat_aligned) ∧
    (∀ d : BoW_Data, d.doc_len n → d.cat_aligned →
      (d.subset_data_points ix).doc_len ix.length ∧ (d.subset_data_points ix).cat_aligned) ∧
    (∀ d : Data, d.doc_len n → d.cat_aligned → ∀ f : String,
      (d.subset_categories cats f).doc_len n ∧ (d.subset_categories cats f).cat_aligned) ∧
    (∀ d : Processed_Data, d.doc_len n → d.cat_aligned → ∀ f : String,
      (d.subset_categories cats f).doc_len n ∧ (d.subset_categories cats f).cat_aligned) ∧
    (∀ d : BoW_Data, d.doc_len n → d.cat_aligned → ∀ f : String,
      (d.subset_categories cats f).doc_len n ∧ (d.subset_categories cats f).cat_aligned) ∧
    (∀ d : BoW_Data, d.doc_len n → d.cat_aligned →
      (d.subset_words cats).doc_len n ∧ (d.subset_words cats).cat_aligned) := by
  refine ⟨fun t hd hc => tgt_sub_inv n ix hix t hd hc,
    fun d hd hc => data_sub_inv n ix hix d hd hc,
    fun d hd hc => proc_sub_inv n ix hix d hd hc,
    fun d hd hc => bow_sub_inv n ix hix d hd hc,
    fun d hd hc f => data_cats_inv n cats d hd hc f,
    fun d hd hc f => proc_cats_inv n cats d hd hc f,
    fun d hd hc f => bow_cats_inv n cats d hd hc f,
    fun d hd hc => bow_words_inv n cats d hd hc⟩

/-- Witness for C1: the invariants evaluated on concrete records. -/
theorem subsetting_preserves_alignment_witness :
    ((exBoW.subset_data_points [2, 0]).doc_len 2 ∧
      (exBoW.subset_data_points [2, 0]).cat_aligned) ∧
    ((exData.subset_categories [1] "t").doc_len 3 ∧
      (exData.subset_categories [1] "t").cat_aligned) ∧
    ((exBoW.subset_words [1]).doc_len 3 ∧ (exBoW.subset_words [1]).cat_aligned) := by
  have h := subsetting_preserves_alignment 3 [2, 0] [1] (by decide)
  exact ⟨h.2.2.2.1 exBoW (by decide) (by decide),
    h.2.2.2.2.1 exData (by decide) (by decide) "t",
    h.2.2.2.2.2.2.2 exBoW (by decide) (by decide)⟩

/-- **C2**: `subset_data_points` maps every 1-D document-indexed field `v` to
`fun k => v[indices[k]]`, every 2-D document-indexed field to the
corresponding row selection, recurses into every nested `Target_Data` of
`target_data` with the same indices, and leaves the category-axis fields
(`uris`, `labels`, `id_to_word`) unchanged; the order (and multiplicity) of
`indices` determines the output. -/
theorem subset_data_points_pointwise (ix : List Nat) (k : Nat) (hk : k < ix.length) :
    (∀ t : Target_Data,
      (t.subset_data_points ix).in_test_set.getD k false
          = t.in_test_set.getD (ix.getD k 0) false ∧
      (t.subset_data_points ix).arr.getD k [] = t.arr.getD (ix.getD k 0) [] ∧
      (t.subset_data_points ix).uris = t.uris ∧
      (t.subset_data_points ix).labels = t.labels) ∧
    (∀ d : Data,
      (d.subset_data_points ix).raw_texts.getD k ""
          = d.raw_texts.getD (ix.getD k 0) "" ∧
      (d.subset_data_points ix).ids.getD k "" = d.ids.getD (ix.getD k 0) "" ∧
      (d.subset_data_points ix).redaktion_arr.getD k false
          = d.redaktion_arr.getD (ix.getD k 0) false ∧
      (d.subset_data_points ix).target_data
          = d.target_data.map (fun p => (p.1, p.2.subset_data_points ix))) ∧
    (∀ d : Processed_Data,
      (d.subset_data_points ix).processed_texts.getD k []
          = d.processed_texts.getD (ix.getD k 0) [] ∧
      (d.subset_data_points ix).toData = d.toData.subset_data_points ix) ∧
    (∀ d : BoW_Data,
      (d.subset_data_points ix).bows.getD k [] = d.bows.getD (ix.getD k 0) [] ∧
      (d.subset_data_points ix).id_to_word = d.id_to_word ∧
      (d.subset_data_points ix).toProcessed_Data
          = d.toProcessed_Data.subset_data_points ix) := by
  refine ⟨fun t => ⟨?_, ?_, rfl, rfl⟩, fun d => ⟨?_, ?_, ?_, rfl⟩,
    fun d => ⟨?_, rfl⟩, fun d => ⟨?_, rfl, rfl⟩⟩
  all_goals exact subIdx_getD _ ix _ k hk

/-- Witness for C2: pointwise row selection evaluated on concrete records. -/
theorem subset_data_points_pointwise_witness :
    (exTD.subset_data_points [2, 0]).in_test_set.getD 0 false
        = exTD.in_test_set.getD 2 false ∧
    (exBoW.subset_data_points [2, 0]).bows.getD 0 [] = exBoW.bows.getD 2 [] ∧
    (exTD.subset_data_points [2, 0]).uris = exTD.uris := by
  have h := subset_data_points_pointwise [2, 0] 0 (by decide)
  exact ⟨(h.1 exTD).1, (h.2.2.2 exBoW).1, (h.1 exTD).2.2.1⟩

end DataModel

namespace DataModel

/-- **C5**: for every composite record whose document-indexed fields have
length `n` and every permutation `P` of `0..n-1`, `subset_data_points` with
`P` followed by `subset_data_points` with the inverse permutation restores the
record (every document-indexed field, hence the whole value, is restored). -/
theorem subset_data_points_roundtrip (n : Nat) (P : List Nat)
    (hP : P.Perm (List.range n)) :
    (∀ d : Data, d.doc_len n →
      (d.subset_data_points P).subset_data_points (inverse_permutation P) = d) ∧
    (∀ d : Processed_Data, d.doc_len n →
      (d.subset_data_points P).subset_data_points (inverse_permutation P) = d) ∧
    (∀ d : BoW_Data, d.doc_len n →
      (d.subset_data_points P).subset_data_points (inverse_permutation P) = d) :=
  ⟨fun d hd => data_roundtrip d n P hP hd,
    fun d hd => proc_roundtrip d n P hP hd,
    fun d hd => bow_roundtrip d n P hP hd⟩

/-- Witness for C5: the round trip evaluated on a concrete record and
permutation. -/
theorem subset_data_points_roundtrip_witness :
    (exBoW.subset_data_points [2, 0, 1]).subset_data_points
        (inverse_permutation [2, 0, 1]) = exBoW := by
  have h := subset_data_points_roundtrip 3 [2, 0, 1] (by decide)
  exact h.2.2 exBoW (by decide)

/-- **C3**: for every `Data`, every target field name present in its
`target_data` and every sequence of in-range category indices `ix`,
`subset_categories` rebuilds exactly that target with
`len(uris) = len(labels) =` column count `= len(ix)`, column `j` of the new
matrix equal to column `ix[j]` of the original, `uris[j]`/`labels[j]` equal to
the original entries at `ix[j]`, and the document axis untouched. -/
theorem subset_categories_spec (d : Data) (f : String) (ix : List Nat)
    (td : Target_Data) (hf : dictLookup d.target_data f = some td)
    (hix : ∀ i ∈ ix, i < td.uris.length) :
    ∃ td', dictLookup (d.subset_categories ix f).target_data f = some td' ∧
      td'.uris.length = ix.length ∧
      td'.labels.length = ix.length ∧
      (∀ row ∈ td'.arr, row.length = ix.length) ∧
      td'.arr.length = td.arr.length ∧
      td'.in_test_set = td.in_test_set ∧
      (∀ j, j < ix.length →
        td'.uris.getD j "" = td.uris.getD (ix.getD j 0) "" ∧
        td'.labels.getD j "" = td.labels.getD (ix.getD j 0) "" ∧
        ∀ i, i < td.arr.length →
          (td'.arr.getD i []).getD j false
              = (td.arr.getD i []).getD (ix.getD j 0) false) := by
  refine ⟨td.subset_cats ix, ?_, subIdx_length _ _ _, subIdx_length _ _ _, ?_, ?_, rfl, ?_⟩
  · simp only [Data.subset_categories, hf]
    exact dictLookup_dictUpdate d.target_data f (td.subset_cats ix)
  · intro row hrow
    obtain ⟨r0, hr0, he⟩ := List.mem_map.mp hrow
    rw [← he]
    exact subIdx_length _ _ _
  · exact List.length_map _ _
  · intro j hj
    refine ⟨subIdx_getD _ ix _ j hj, subIdx_getD _ ix _ j hj, ?_⟩
    intro i hi
    have harr : (td.subset_cats ix).arr.getD i []
        = subIdx (td.arr.getD i []) ix false := by
      exact getD_map _ td.arr i [] [] hi
    rw [harr, subIdx_getD _ ix _ j hj]

/-- Witness for C3: the rebuilt target evaluated on a concrete record. -/
theorem subset_categories_spec_witness :
    ∃ td', dictLookup (exData.subset_categories [1, 0, 1] "t").target_data "t"
        = some td' ∧
      td'.uris.length = 3 ∧ td'.labels.length = 3 ∧
      (∀ row ∈ td'.arr, row.length = 3) ∧
      td'.arr.length = exTD.arr.length ∧
      td'.in_test_set = exTD.in_test_set ∧
      (∀ j, j < 3 →
        td'.uris.getD j "" = exTD.uris.getD ([1, 0, 1].getD j 0) "" ∧
        td'.labels.getD j "" = exTD.labels.getD ([1, 0, 1].getD j 0) "" ∧
        ∀ i, i < exTD.arr.length →
          (td'.arr.getD i []).getD j false
              = (exTD.arr.getD i []).getD ([1, 0, 1].getD j 0) false) :=
  subset_categories_spec exData "t" [1, 0, 1] exTD (by decide) (by decide)

/-- **C4**: `subset_words` reorders the `bows` columns by `ix` (column `k` of
the result is column `ix[k]` of the original) and rebuilds `id_to_word` with
keys exactly `0..len(ix)-1` mapping `k` to the old word at `ix[k]`; the spec's
concrete `{0: cat, 1: dog, 2: fish}` / `[2, 0]` scenario evaluates as stated. -/
theorem subset_words_spec (b : BoW_Data) (ix : List Nat) :
    ((b.subset_words ix).id_to_word.map Prod.fst = List.range ix.length) ∧
    (∀ k, k < ix.length →
      dictLookup (b.subset_words ix).id_to_word k
          = some ((dictLookup b.id_to_word (ix.getD k 0)).getD "")) ∧
    (∀ i, i < b.bows.length → ∀ k, k < ix.length →
      ((b.subset_words ix).bows.getD i []).getD k 0
          = (b.bows.getD i []).getD (ix.getD k 0) 0) ∧
    (exBoWWords.subset_words [2, 0]).id_to_word = [(0, "fish"), (1, "cat")] ∧
    (exBoWWords.subset_words [2, 0]).bows = [[3, 1], [6, 4]] := by
  refine ⟨?_, ?_, ?_, by rfl, by rfl⟩
  · show (ix.enum.map
        (fun p => (p.1, (dictLookup b.id_to_word p.2).getD ""))).map Prod.fst
        = List.range ix.length
    exact enum_map_keys (fun old => (dictLookup b.id_to_word old).getD "") ix
  · intro k hk
    have h := dictLookup_enum_map
      (fun old => (dictLookup b.id_to_word old).getD "") ix k hk
    rw [getD_eq_getElem ix k hk]
    exact h
  · intro i hi k hk
    have hrow : (b.subset_words ix).bows.getD i []
        = subIdx (b.bows.getD i []) ix 0 := getD_map _ b.bows i [] [] hi
    rw [hrow, subIdx_getD _ ix _ k hk]

/-- Witness for C4: the reindexing evaluated at a concrete key. -/
theorem subset_words_spec_witness :
    dictLookup (exBoWWords.subset_words [2, 0]).id_to_word 0
        = some ((dictLookup exBoWWords.id_to_word 2).getD "") ∧
    ((exBoWWords.subset_words [2, 0]).bows.getD 0 []).getD 0 0
        = (exBoWWords.bows.getD 0 []).getD 2 0 := by
  have h := subset_words_spec exBoWWords [2, 0]
  exact ⟨h.2.1 0 (by decide), h.2.2.1 0 (by decide) 0 (by decide)⟩

end DataModel

namespace DataModel

theorem bow_fold_getD (words : List String) (hnd : words.Nodup) (f : String → Nat)
    (L : List String) :
    ∀ (res : List Nat), res.length = words.length → ∀ j, ∀ hj : j < words.length,
      (L.foldl (fun r w => r.set (words.indexOf w) (f w)) res).getD j 0 =
        if words[j] ∈ L then f words[j] else res.getD j 0 := by
  induction L with
  | nil =>
    intro res hres j hj
    simp
  | cons w L ih =>
    intro res hres j hj
    have hres' : (res.set (words.indexOf w) (f w)).length = words.length := by
      simpa using hres
    rw [List.foldl_cons, ih _ hres' j hj]
    by_cases hjL : words[j] ∈ L
    · simp [hjL]
    · simp only [hjL, if_false]
      by_cases hjw : words[j] = w
      · have hidx : words.indexOf w = j := by
          rw [← hjw]
          exact List.indexOf_getElem hnd j hj
        have hjres : j < res.length := by rwa [hres]
        have hset : (res.set (words.indexOf w) (f w)).getD j 0 = f w := by
          rw [hidx, List.getD_eq_getElem?_getD, List.getElem?_set_eq_of_lt _ hjres]
          rfl
        rw [hset]
        simp [List.mem_cons, hjw]
      · have hne : words.indexOf w ≠ j := by
          intro he
          by_cases hw : w ∈ words
          · have hlt : words.indexOf w < words.length := List.indexOf_lt_length.mpr hw
            have hgw := List.getElem_indexOf hlt
            subst he
            exact hjw hgw
          · have : words.indexOf w = words.length := List.indexOf_eq_length.mpr hw
            omega
        have hset : (res.set (words.indexOf w) (f w)).getD j 0 = res.getD j 0 := by
          rw [List.getD_eq_getElem?_getD, List.getD_eq_getElem?_getD,
            List.getElem?_set_ne hne]
        rw [hset]
        simp [List.mem_cons, hjw, hjL]

theorem doc_to_bow_getD (words doc : List String) (hnd : words.Nodup) (j : Nat)
    (hj : j < words.length) :
    (doc_to_bow words doc).getD j 0 = min (doc.count words[j]) 255 := by
  unfold doc_to_bow
  rw [bow_fold_getD words hnd _ doc.dedup _ (by simp) j hj]
  by_cases h : words[j] ∈ doc.dedup
  · simp [h]
  · simp only [h, if_false]
    have hc : doc.count words[j] = 0 :=
      List.count_eq_zero.mpr (by simpa [List.mem_dedup] using h)
    rw [hc]
    have hrep : (List.replicate words.length (0 : Nat)).getD j 0 = 0 := by
      rw [List.getD_eq_getElem?_getD]
      simp [List.getElem?_replicate, hj]
    rw [hrep]
    simp

theorem foldl_set_length (words : List String) (f : String → Nat) (L : List String) :
    ∀ res : List Nat,
      (L.foldl (fun r w => r.set (words.indexOf w) (f w)) res).length = res.length := by
  induction L with
  | nil => intro res; rfl
  | cons w L ih =>
    intro res
    rw [List.foldl_cons, ih]
    simp

theorem doc_to_bow_length (words doc : List String) :
    (doc_to_bow words doc).length = words.length := by
  unfold doc_to_bow
  rw [foldl_set_length]
  simp

end DataModel

namespace DataModel

theorem getD_default {α : Type} (xs : List α) (i : Nat) (d : α) (h : xs.length ≤ i) :
    xs.getD i d = d := by
  rw [List.getD_eq_getElem?_getD, List.getElem?_eq_none h]
  rfl

/-- **C9**: in `BoW_Data.from_processed_data`, the stored bag-of-words count
for document `i` and vocabulary word `j` equals `min(occurrences, 255)`, and
no stored count ever exceeds 255 (the uint8 clamp never wraps around). -/
theorem from_processed_data_counts (d : Processed_Data) (i j : Nat)
    (hi : i < d.processed_texts.length)
    (hj : j < (vocabulary d.processed_texts).length) :
    ((BoW_Data.from_processed_data d).bows.getD i []).getD j 0
        = min ((d.processed_texts.getD i []).count
            ((vocabulary d.processed_texts).getD j "")) 255 ∧
    ∀ i' j' : Nat,
      ((BoW_Data.from_processed_data d).bows.getD i' []).getD j' 0 ≤ 255 := by
  have hnd : (vocabulary d.processed_texts).Nodup := List.nodup_dedup _
  have hrow : ∀ i0 : Nat, i0 < d.processed_texts.length →
      (BoW_Data.from_processed_data d).bows.getD i0 []
        = doc_to_bow (vocabulary d.processed_texts) (d.processed_texts.getD i0 []) := by
    intro i0 hi0
    exact getD_map _ _ i0 [] [] hi0
  constructor
  · rw [hrow i hi, doc_to_bow_getD _ _ hnd j hj, getD_eq_getElem _ j hj]
  · intro i' j'
    by_cases hi' : i' < d.processed_texts.length
    · rw [hrow i' hi']
      by_cases hj' : j' < (vocabulary d.processed_texts).length
      · rw [doc_to_bow_getD _ _ hnd j' hj']
        exact Nat.min_le_right _ _
      · rw [getD_default _ j' 0 (by rw [doc_to_bow_length]; omega)]
        omega
    · have hlen : (BoW_Data.from_processed_data d).bows.length ≤ i' := by
        simpa [BoW_Data.from_processed_data] using Nat.le_of_not_lt hi'
      rw [getD_default _ i' [] hlen]
      simp

set_option maxRecDepth 4000 in
/-- Witness for C9: a document containing the word `w` 300 times encodes to
the clamped count 255. -/
theorem from_processed_data_counts_witness :
    ((BoW_Data.from_processed_data
        { toData := exData
          processed_texts := [List.replicate 300 "w"] }).bows.getD 0 []).getD 0 0
      = 255 := by
  have h := from_processed_data_counts
    { toData := exData, processed_texts := [List.replicate 300 "w"] } 0 0
    (by decide) (by decide)
  exact h.1.trans (by decide)

end DataModel

namespace FlatClassification

theorem mem_of_mem_maskKeep {α : Type} {xs : List α} {mask : List Bool} {x : α}
    (h : x ∈ maskKeep xs mask) : x ∈ xs := by
  obtain ⟨p, hp, hpe⟩ := List.mem_filterMap.mp h
  by_cases h2 : p.2
  · rw [if_pos h2] at hpe
    obtain rfl : p.1 = x := by simpa using hpe
    exact (List.of_mem_zip hp).1
  · rw [if_neg h2] at hpe
    simp at hpe

theorem maskKeep_map {α β : Type} (f : α → β) (xs : List α) (mask : List Bool) :
    maskKeep (xs.map f) mask = (maskKeep xs mask).map f := by
  induction xs generalizing mask with
  | nil => simp [maskKeep]
  | cons x xs ih =>
    cases mask with
    | nil => simp [maskKeep]
    | cons b bs =>
      have ihb := ih bs
      simp only [maskKeep] at ihb ⊢
      cases b <;>
        simp [List.zip_cons_cons, List.filterMap_cons, ihb]

theorem maskKeep_self_map {α : Type} (ys : List α) (p : α → Bool) :
    maskKeep ys (ys.map p) = ys.filter p := by
  induction ys with
  | nil => rfl
  | cons y ys ih =>
    simp only [maskKeep] at ih ⊢
    by_cases h : p y <;>
      simp [List.zip_cons_cons, List.filterMap_cons, List.filter_cons, h, ih]

theorem maskKeep_length_pair {α β : Type} (xs : List α) (ys : List β)
    (mask : List Bool) (h : xs.length = ys.length) :
    (maskKeep xs mask).length = (maskKeep ys mask).length := by
  induction mask generalizing xs ys with
  | nil => simp [maskKeep]
  | cons b bs ih =>
    cases xs with
    | nil =>
      cases ys with
      | nil => rfl
      | cons y ys => simp at h
    | cons x xs =>
      cases ys with
      | nil => simp at h
      | cons y ys =>
        have h' : xs.length = ys.length := by simpa using h
        have ihb := ih xs ys h'
        simp only [maskKeep] at ihb ⊢
        cases b <;>
          simp [List.zip_cons_cons, List.filterMap_cons, ihb]

theorem maskKeep_range {α : Type} (n : Nat) (xs : List α) (d : α) (p : Nat → Bool)
    (h : xs.length = n) :
    maskKeep xs ((List.range n).map p)
      = ((List.range n).filter p).map (fun j => xs.getD j d) := by
  have hx : xs = (List.range n).map (fun j => xs.getD j d) := by
    rw [← h]
    exact DataModel.self_eq_range_map xs d
  calc maskKeep xs ((List.range n).map p)
      = maskKeep ((List.range n).map (fun j => xs.getD j d)) ((List.range n).map p) := by
        rw [← hx]
    _ = (maskKeep (List.range n) ((List.range n).map p)).map (fun j => xs.getD j d) :=
        maskKeep_map _ _ _
    _ = ((List.range n).filter p).map (fun j => xs.getD j d) := by
        rw [maskKeep_self_map]

end FlatClassification

namespace FlatClassification

/-- **C6**: the min-support filtering step (`subset_target_categories` with the
mask `arr.sum(-2) > t` built in `_values_to_target_data`) keeps exactly the
columns with support `> t` (in their original order `kept_categories`), drops
every column with support `≤ t`, reindexes `uris` and `labels` in lockstep,
leaves every retained column's content (hence its support) unchanged, and does
not remove or reorder documents. -/
theorem min_support_filter_spec (td : Target_Data) (t : Nat)
    (hlab : td.labels.length = td.uris.length)
    (hrect : ∀ row ∈ td.arr, row.length = td.uris.length) :
    (subset_target_categories td (min_support_mask td.arr td.uris.length t)).uris
        = (kept_categories td.arr td.uris.length t).map (fun j => td.uris.getD j "") ∧
    (subset_target_categories td (min_support_mask td.arr td.uris.length t)).labels
        = (kept_categories td.arr td.uris.length t).map (fun j => td.labels.getD j none) ∧
    (subset_target_categories td (min_support_mask td.arr td.uris.length t)).arr
        = td.arr.map (fun row =>
            (kept_categories td.arr td.uris.length t).map (fun j => row.getD j false)) ∧
    (subset_target_categories td (min_support_mask td.arr td.uris.length t)).arr.length
        = td.arr.length ∧
    (∀ j ∈ kept_categories td.arr td.uris.length t, t < colSum td.arr j) ∧
    (∀ j, j < td.uris.length → colSum td.arr j ≤ t →
      j ∉ kept_categories td.arr td.uris.length t) ∧
    (∀ k, k < (kept_categories td.arr td.uris.length t).length →
      colSum (subset_target_categories td (min_support_mask td.arr td.uris.length t)).arr k
        = colSum td.arr ((kept_categories td.arr td.uris.length t).getD k 0)) := by
  have harr : (subset_target_categories td (min_support_mask td.arr td.uris.length t)).arr
      = td.arr.map (fun row =>
          (kept_categories td.arr td.uris.length t).map (fun j => row.getD j false)) := by
    show td.arr.map (fun row => maskKeep row (min_support_mask td.arr td.uris.length t)) = _
    apply List.map_congr_left
    intro row hrow
    exact maskKeep_range td.uris.length row false _ (hrect row hrow)
  refine ⟨maskKeep_range td.uris.length td.uris "" _ rfl,
    maskKeep_range td.uris.length td.labels none _ hlab, harr, ?_, ?_, ?_, ?_⟩
  · rw [harr]
    exact List.length_map _ _
  · intro j hj
    have := (List.mem_filter.mp hj).2
    exact of_decide_eq_true this
  · intro j hjlt hle hj
    have := of_decide_eq_true (List.mem_filter.mp hj).2
    omega
  · intro k hk
    rw [harr]
    unfold colSum
    rw [List.map_map]
    apply congrArg List.sum
    apply List.map_congr_left
    intro row hrow
    show (if ((kept_categories td.arr td.uris.length t).map
        (fun j => row.getD j false)).getD k false then 1 else 0)
      = (if row.getD ((kept_categories td.arr td.uris.length t).getD k 0) false
          then 1 else 0)
    rw [DataModel.getD_map _ _ k 0 false hk]

/-- Witness for C6: the min-support filter evaluated on a concrete target with
threshold 1 (columns with support 2 survive, columns with support 0 or 1 drop). -/
theorem min_support_filter_spec_witness :
    (subset_target_categories exFlatTD
        (min_support_mask exFlatTD.arr exFlatTD.uris.length 1)).uris
      = (kept_categories exFlatTD.arr exFlatTD.uris.length 1).map
          (fun j => exFlatTD.uris.getD j "") ∧
    (∀ j ∈ kept_categories exFlatTD.arr exFlatTD.uris.length 1,
      1 < colSum exFlatTD.arr j) := by
  have h := min_support_filter_spec exFlatTD 1 (by decide) (by decide)
  exact ⟨h.1, h.2.2.2.2.1⟩

/-- **C7**: `_values_to_target_data` returns the `Target_Data` built from the
unfiltered `arr`, `uris`, `labels`; the min-support-filtered record it
computes is discarded, so the result does not depend on
`min_category_support` at all. -/
theorem values_to_target_data_unfiltered (values : List (List String))
    (labelLookup : String → Option String) (m : Option Nat) :
    values_to_target_data values labelLookup m
        = { arr := (as_boolean_array values).1
            uris := (as_boolean_array values).2
            labels := (as_boolean_array values).2.map labelLookup } ∧
    values_to_target_data values labelLookup m
        = values_to_target_data values labelLookup none :=
  ⟨rfl, rfl⟩

/-- **C8**: under aligned input and a mask of matching length, the assertion
`len(uris) == len(labels) == arr.shape[-1]` checked right after the filtering
step of `subset_target_categories` holds on the value it returns. -/
theorem subset_target_categories_check (td : Target_Data) (mask : List Bool)
    (hlab : td.labels.length = td.uris.length)
    (hrect : ∀ row ∈ td.arr, row.length = td.uris.length)
    (hmask : mask.length = td.uris.length) :
    (subset_target_categories td mask).length_check := by
  constructor
  · exact maskKeep_length_pair td.uris td.labels mask hlab.symm
  · intro row hrow
    obtain ⟨r0, hr0, he⟩ := List.mem_map.mp hrow
    rw [← he]
    exact maskKeep_length_pair r0 td.uris mask (hrect r0 hr0)

/-- Witness for C8: the assertion evaluated on a concrete aligned target and
mask. -/
theorem subset_target_categories_check_witness :
    (subset_target_categories exFlatTD [true, false, true]).length_check :=
  subset_target_categories_check exFlatTD [true, false, true]
    (by decide) (by decide) (by decide)

end FlatClassification

namespace FlatClassification

theorem mem_language_rows {rows : List Row} {allowed : Option (List String)}
    {r : Row} (h : r ∈ language_rows rows allowed) : r ∈ rows := by
  cases allowed with
  | none => exact h
  | some langs => exact List.mem_of_mem_filter h

theorem kept_rows_nonempty {rows : List Row} {r : Row} (h : r ∈ kept_rows rows) :
    ∃ t dsc, r.title = some t ∧ t.length ≠ 0 ∧
      r.description = some dsc ∧ dsc.length ≠ 0 := by
  have hp := List.of_mem_filter h
  simp only [Bool.and_eq_true] at hp
  obtain ⟨hd, ht⟩ := hp
  rcases htitle : r.title with _ | t
  · rw [htitle] at ht
    simp [empty_str] at ht
  · rcases hdesc : r.description with _ | dsc
    · rw [hdesc] at hd
      simp [empty_str] at hd
    · refine ⟨t, dsc, rfl, ?_, rfl, ?_⟩
      · rw [htitle] at ht
        simpa [empty_str] using ht
      · rw [hdesc] at hd
        simpa [empty_str] using hd

theorem mem_kept_rows_self {rows : List Row} {r : Row} (h : r ∈ kept_rows rows) :
    r ∈ rows :=
  List.mem_of_mem_filter h

/-- **C10**: every `Data` returned by `generate_data` is built solely from rows
whose title and description are both present and non-empty (such rows are
dropped by the first filter, before target encoding and the document-membership
filter), and `raw_texts[i]` is exactly `title + "\n" + description` of the
`i`-th surviving row. -/
theorem generate_data_texts (rows : List Row) (target_fields : List String)
    (labelLookup : String → Option String) (allowed : Option (List String))
    (keep_any : Bool) (msup : Option Nat) :
    (∀ r ∈ final_rows rows target_fields labelLookup allowed keep_any msup,
      ∃ t dsc, r.title = some t ∧ t.length ≠ 0 ∧
        r.description = some dsc ∧ dsc.length ≠ 0) ∧
    (generate_data rows target_fields labelLookup allowed keep_any msup).raw_texts
        = (final_rows rows target_fields labelLookup allowed keep_any msup).map
            (fun r => r.title.getD "" ++ "\n" ++ r.description.getD "") ∧
    (∀ i, i < (generate_data rows target_fields labelLookup allowed keep_any
          msup).raw_texts.length →
      ∃ t dsc,
        ((final_rows rows target_fields labelLookup allowed keep_any msup).getD
            i default).title = some t ∧ t.length ≠ 0 ∧
        ((final_rows rows target_fields labelLookup allowed keep_any msup).getD
            i default).description = some dsc ∧ dsc.length ≠ 0 ∧
        (generate_data rows target_fields labelLookup allowed keep_any
            msup).raw_texts.getD i ""
          = t ++ "\n" ++ dsc) ∧
    (generate_data rows target_fields labelLookup allowed keep_any msup).target_data
        = (encoded_targets (language_rows (kept_rows rows) allowed) target_fields
            labelLookup msup).map
            (fun p => (p.1, subset_target_array p.2
              (combined_kept
                ((encoded_targets (language_rows (kept_rows rows) allowed)
                  target_fields labelLookup msup).map Prod.snd) keep_any))) := by
  have hmem : ∀ r ∈ final_rows rows target_fields labelLookup allowed keep_any msup,
      ∃ t dsc, r.title = some t ∧ t.length ≠ 0 ∧
        r.description = some dsc ∧ dsc.length ≠ 0 := by
    intro r hr
    have h2 : r ∈ language_rows (kept_rows rows) allowed := mem_of_mem_maskKeep hr
    exact kept_rows_nonempty (mem_language_rows h2)
  have hraw : (generate_data rows target_fields labelLookup allowed keep_any
        msup).raw_texts
      = (final_rows rows target_fields labelLookup allowed keep_any msup).map
          (fun r => r.title.getD "" ++ "\n" ++ r.description.getD "") := rfl
  refine ⟨hmem, hraw, ?_, rfl⟩
  intro i hi
  have hlen : i < (final_rows rows target_fields labelLookup allowed keep_any
      msup).length := by
    rw [hraw] at hi
    simpa using hi
  have hin : (final_rows rows target_fields labelLookup allowed keep_any msup).getD
      i default ∈ final_rows rows target_fields labelLookup allowed keep_any msup :=
    DataModel.getD_mem _ i default hlen
  obtain ⟨t, dsc, ht, htn, hd, hdn⟩ := hmem _ hin
  refine ⟨t, dsc, ht, htn, hd, hdn, ?_⟩
  rw [hraw, DataModel.getD_map _ _ i default "" hlen, ht, hd]
  rfl

/-- Witness for C10: the pipeline evaluated on concrete rows (rows with a
missing title, an empty title or an empty description are dropped; the
surviving row yields `"T1\nD1"`). -/
theorem generate_data_texts_witness :
    (generate_data exRows ["subject"] (fun _ => none) none true none).raw_texts
        = (final_rows exRows ["subject"] (fun _ => none) none true none).map
            (fun r => r.title.getD "" ++ "\n" ++ r.description.getD "") ∧
    (∃ t dsc,
      ((final_rows exRows ["subject"] (fun _ => none) none true none).getD
          0 default).title = some t ∧ t.length ≠ 0 ∧
      ((final_rows exRows ["subject"] (fun _ => none) none true none).getD
          0 default).description = some dsc ∧ dsc.length ≠ 0 ∧
      (generate_data exRows ["subject"] (fun _ => none) none true
          none).raw_texts.getD 0 ""
        = t ++ "\n" ++ dsc) := by
  have h := generate_data_texts exRows ["subject"] (fun _ => none) none true none
  exact ⟨h.2.1, h.2.2.1 0 (by decide)⟩

end FlatClassification
